import Mathlib

/-!
Verification of the migration orchestration core of the terraform-state-migration
repository. Go strings and byte slices are modelled as lists of characters
(faithful for ASCII data, which is all the claims exercise); external
collaborators (the AWS SDK PutObject/HeadObject calls, the JSON marshaller,
the Terraform Cloud state fetch) are passed in as oracle functions and the
model records the calls the core makes to them.
-/

/-- Go strings / byte slices, modelled as lists of characters. -/
abbrev Bytes := List Char

/-- The ordered environment-suffix table of removeEnvironmentSuffix
(internal/migrator/migrator.go line 71). -/
def envSuffixes : List Bytes :=
  [("-stg").data, ("-prd").data, ("-dev").data, ("-prod").data, ("-staging").data,
   ("-production").data, ("-test").data, ("-qa").data, ("-uat").data]

/-- Per-character lowercasing, modelling Go strings.ToLower (ASCII-faithful). -/
def toLowerStr (s : Bytes) : Bytes := s.map Char.toLower

/-- Embedding of Migrator.removeEnvironmentSuffix (migrator.go lines 69-87): the
first suffix of the table that the lowercased name ends with is stripped from the
original name by length; if no suffix matches, the name is returned unchanged. -/
def removeEnvironmentSuffix (name : Bytes) : Bytes :=
  match envSuffixes.find? (fun s => s.isSuffixOf (toLowerStr name)) with
  | some s => name.take (name.length - s.length)
  | none => name

/-- Go filepath.Join on two components, as used by generateStateKey. The Clean
step of filepath.Join is the identity on the slash-free, non-dot component names
this program joins, so it is not modelled. -/
def goPathJoin (a b : Bytes) : Bytes :=
  if a = [] then b else if b = [] then a else a ++ ('/' :: b)

/-- Destination-store client state (internal/s3client/client.go lines 18-23).
The Go field named for the configured key prefix is modelled as keyPrefix. -/
structure S3Client where
  bucket : Bytes
  keyPrefix : Bytes
  deriving DecidableEq, Repr

/-- File name of the state object. -/
def tfstateFile : Bytes := ("terraform.tfstate").data

/-- File name of the metadata object. -/
def metadataFile : Bytes := ("metadata.json").data

/-- Content type used for both uploads. -/
def jsonCT : Bytes := ("application/json").data

/-- Embedding of Client.generateStateKey (client.go lines 187-191): it joins only
the workspace name and the file name; the organization argument and the client's
configured key prefix are not used. -/
def S3Client.generateStateKey (_c : S3Client) (_organization workspaceName filename : Bytes) :
    Bytes :=
  goPathJoin workspaceName filename

/-- One PutObject call issued to the object store. -/
structure PutCall where
  key : Bytes
  content : Bytes
  contentType : Bytes
  deriving DecidableEq, Repr

/-- The metadata mapping attached to a state (map from string keys to values;
values are opaque to the core). -/
abbrev Metadata := List (Bytes × Bytes)

/-- Trace of one Client.UploadState call: object writes attempted, in order,
and the error returned, if any. -/
structure UploadTrace where
  puts : List PutCall
  err : Option Bytes
  deriving DecidableEq, Repr

/-- Embedding of Client.UploadState (client.go lines 88-141). putObject models
the vendor PutObject call (none means success), marshalIndent models
json.MarshalIndent producing the pretty-printed metadata document. The state
object is written first; the metadata object is written only if the state write
and the serialization both succeed. -/
def S3Client.UploadState (c : S3Client) (putObject : PutCall → Option Bytes)
    (marshalIndent : Metadata → Option Bytes)
    (organization workspaceName stateContent : Bytes) (metadata : Metadata) : UploadTrace :=
  let stateKey := c.generateStateKey organization workspaceName tfstateFile
  let metadataKey := c.generateStateKey organization workspaceName metadataFile
  let statePut : PutCall := ⟨stateKey, stateContent, jsonCT⟩
  match putObject statePut with
  | some e => ⟨[statePut], some e⟩
  | none =>
    match marshalIndent metadata with
    | none => ⟨[statePut], some (("marshal error").data)⟩
    | some mj =>
      let metadataPut : PutCall := ⟨metadataKey, mj, jsonCT⟩
      match putObject metadataPut with
      | some e => ⟨[statePut, metadataPut], some e⟩
      | none => ⟨[statePut, metadataPut], none⟩

/-- Outcome of the vendor HeadObject call, as classified by CheckStateExists. -/
inductive HeadResult where
  | ok
  | noSuchKey
  | bucketNotFound
  | otherError (msg : Bytes)
  deriving DecidableEq, Repr

/-- Trace of one Client.CheckStateExists call: the key probed, the existence
answer, and the error, if any. -/
structure CheckTrace where
  queriedKey : Bytes
  found : Bool
  err : Option Bytes
  deriving DecidableEq, Repr

/-- Embedding of Client.CheckStateExists (client.go lines 144-162): probes the
state key; not-found answers map to a clean false, any other error is returned
with found = false. -/
def S3Client.CheckStateExists (c : S3Client) (headObject : Bytes → HeadResult)
    (organization workspaceName : Bytes) : CheckTrace :=
  let stateKey := c.generateStateKey organization workspaceName tfstateFile
  match headObject stateKey with
  | .ok => ⟨stateKey, true, none⟩
  | .noSuchKey => ⟨stateKey, false, none⟩
  | .bucketNotFound => ⟨stateKey, false, none⟩
  | .otherError e => ⟨stateKey, false, some e⟩

/-- A workspace record as the orchestration core sees it
(internal/terraform/client.go, struct Workspace; only the fields the core reads). -/
structure Workspace where
  id : Bytes
  name : Bytes
  hasState : Bool
  deriving DecidableEq, Repr

/-- Trace of the retry loop of migrateWorkspace: number of upload calls made,
back-off sleeps performed (in seconds, in order), and the upload error left in
uploadErr when the loop exits. -/
structure RetryTrace where
  attempts : Nat
  sleeps : List Nat
  lastErr : Option Bytes
  deriving DecidableEq, Repr

/-- Embedding of the retry loop of migrateWorkspace (migrator.go lines 344-363),
unrolled from a given attempt number: the loop runs while attempt is at most
retryAttempts, breaks on a successful upload, and after a failed attempt that is
not the last sleeps attempt seconds before retrying. -/
def retryFrom (retryAttempts : Nat) (upload : Nat → Option Bytes) (attempt : Nat) : RetryTrace :=
  if _h1 : attempt ≤ retryAttempts then
    match upload attempt with
    | none => ⟨1, [], none⟩
    | some e =>
      if _h2 : attempt < retryAttempts then
        let rest := retryFrom retryAttempts upload (attempt + 1)
        ⟨rest.attempts + 1, attempt :: rest.sleeps, rest.lastErr⟩
      else ⟨1, [], some e⟩
  else ⟨0, [], none⟩
termination_by retryAttempts + 1 - attempt
decreasing_by omega

/-- The retry loop as run by migrateWorkspace, starting at attempt 1. -/
def retryLoop (retryAttempts : Nat) (upload : Nat → Option Bytes) : RetryTrace :=
  retryFrom retryAttempts upload 1

/-- Result of one per-workspace migration task. -/
inductive TaskResult where
  | ok
  | fetchError (e : Bytes)
  | uploadError (attempts : Nat) (lastErr : Bytes)
  deriving DecidableEq, Repr

/-- Trace of one migrateWorkspace call: number of UploadState calls performed,
back-off sleeps, and the task result. -/
structure TaskTrace where
  uploads : Nat
  sleeps : List Nat
  result : TaskResult
  deriving DecidableEq, Repr

/-- Embedding of migrateWorkspace (migrator.go lines 326-370). fetch models
tfClient.GetWorkspaceState for this workspace; upload models the per-attempt
outcome of s3Client.UploadState. A fetch failure is returned at once; a dry run
returns success right after the fetch, performing no upload; otherwise the retry
loop runs and exhaustion is wrapped with the configured attempt count. -/
def migrateWorkspace (retryAttempts : Nat) (fetch : Except Bytes Bytes)
    (dryRun : Bool) (upload : Nat → Option Bytes) : TaskTrace :=
  match fetch with
  | .error e => ⟨0, [], .fetchError e⟩
  | .ok _ =>
    if dryRun then ⟨0, [], .ok⟩
    else
      let t := retryLoop retryAttempts upload
      match t.lastErr with
      | some e => ⟨t.attempts, t.sleeps, .uploadError retryAttempts e⟩
      | none => ⟨t.attempts, t.sleeps, .ok⟩

/-- The error a task reports to processBatch, if any. -/
def TaskTrace.errorOf (t : TaskTrace) : Option Bytes :=
  match t.result with
  | .ok => none
  | .fetchError e => some e
  | .uploadError _ e => some e

/-- The shared aggregate of a run (migrator.go struct MigrationStats; timing
fields are modelled by the run trace below). -/
structure MigrationStats where
  Total : Nat
  Successful : Nat
  Failed : Nat
  FailedItems : List (Bytes × Bytes)
  deriving DecidableEq, Repr

/-- The statistics object as initialized by Migrate once planning has fixed the
total (migrator.go lines 129-139). -/
def initStats (total : Nat) : MigrationStats := ⟨total, 0, 0, []⟩

/-- Embedding of the outcome-recording critical section of processBatch
(migrator.go lines 305-317): exactly one counter is incremented per task, and a
failure appends the workspace name and error text. -/
def recordOutcome (stats : MigrationStats) (name : Bytes) (err : Option Bytes) :
    MigrationStats :=
  match err with
  | some e =>
    { stats with Failed := stats.Failed + 1, FailedItems := stats.FailedItems ++ [(name, e)] }
  | none => { stats with Successful := stats.Successful + 1 }

/-- Embedding of processBatch (migrator.go lines 288-323) at the level of its
effect on the shared statistics: every workspace of the batch contributes exactly
one recorded outcome; outcome gives each task's error, if any. The in-flight
bound of the batch is modelled separately by BatchStep below. -/
def processBatch (outcome : Workspace → Option Bytes) (batch : List Workspace)
    (stats : MigrationStats) : MigrationStats :=
  batch.foldl (fun s w => recordOutcome s w.name (outcome w)) stats

/-- The contiguous batch partition computed by the slicing loop of processBatches
(migrator.go lines 256-262). A zero batch size never reaches this loop (config
validation requires batch_size greater than 0; the Go loop would not advance). -/
def goChunks (B : Nat) (l : List α) : List (List α) :=
  match B, l with
  | 0, _ => []
  | _ + 1, [] => []
  | B' + 1, x :: xs => ((x :: xs).take (B' + 1)) :: goChunks (B' + 1) ((x :: xs).drop (B' + 1))
termination_by l.length
decreasing_by simp; omega

/-- Trace of processBatches: final statistics and the batch numbers after which
the pacing sleep ran. -/
structure RunBatchesTrace where
  stats : MigrationStats
  sleepsAfter : List Nat
  deriving DecidableEq, Repr

/-- Embedding of the body of the batch loop of processBatches (migrator.go lines
256-282): batches are processed strictly in order; after a batch whose number is
below totalBatches the loop sleeps one second (recorded by batch number). -/
def runBatches (outcome : Workspace → Option Bytes) (totalBatches : Nat) :
    List (List Workspace) → Nat → MigrationStats → RunBatchesTrace
  | [], _, s => ⟨s, []⟩
  | b :: bs, k, s =>
    let s' := processBatch outcome b s
    let t := runBatches outcome totalBatches bs (k + 1) s'
    if k < totalBatches then ⟨t.stats, k :: t.sleepsAfter⟩ else ⟨t.stats, t.sleepsAfter⟩

/-- Embedding of processBatches (migrator.go lines 252-285): partitions the
planned list, then runs the batch loop starting at batch number 1. It always
returns nil to Migrate, so no error component is modelled. -/
def processBatches (B : Nat) (outcome : Workspace → Option Bytes) (ws : List Workspace)
    (stats : MigrationStats) : RunBatchesTrace :=
  let batches := goChunks B ws
  runBatches outcome batches.length batches 1 stats

/-- Embedding of the success-rate block of logFinalStats (migrator.go lines
398-401): the rate is computed, over the rationals, only when Total is positive;
otherwise no rate is emitted. -/
def successRateOf (stats : MigrationStats) : Option ℚ :=
  if 0 < stats.Total then
    some ((stats.Successful : ℚ) / (stats.Total : ℚ) * 100)
  else none

/-- Trace of one Migrate run from the point where planning succeeded. -/
structure RunTrace where
  stats : MigrationStats
  endStamped : Bool
  summaryEmitted : Bool
  successRate : Option ℚ
  sleepsAfter : List Nat
  runError : Bool
  deriving Repr

/-- Embedding of Migrate after connection validation and planning succeed
(migrator.go lines 129-168): planned is the list returned by
getWorkspacesToMigrate. An empty plan returns success immediately, before the
end time is stamped or the final statistics are logged; otherwise the batches
run, the end is stamped, the summary is logged, and the call errors exactly when
the failure count is positive. -/
def Migrate (B : Nat) (outcome : Workspace → Option Bytes) (planned : List Workspace) :
    RunTrace :=
  let stats0 := initStats planned.length
  if planned.length = 0 then ⟨stats0, false, false, none, [], false⟩
  else
    let t := processBatches B outcome planned stats0
    ⟨t.stats, true, true, successRateOf t.stats, t.sleepsAfter, decide (0 < t.stats.Failed)⟩

/-- Trace of the filtering pass of getWorkspacesToMigrate: the migration set and
the two diagnostic name lists, each in input order. -/
structure PlanTrace where
  toMigrate : List Workspace
  withoutState : List Bytes
  alreadyMigrated : List Bytes
  deriving DecidableEq, Repr

/-- Embedding of the filtering loop of getWorkspacesToMigrate (migrator.go lines
202-229): workspaces without state are collected as a diagnostic; for the rest
the destination is probed at the normalized name, existing destinations are
skipped, and probe errors are ignored (fail-open: the found flag of the probe,
false on error, decides). -/
def planWorkspaces (c : S3Client) (headObject : Bytes → HeadResult) (organization : Bytes) :
    List Workspace → PlanTrace
  | [] => ⟨[], [], []⟩
  | w :: rest =>
    let t := planWorkspaces c headObject organization rest
    if !w.hasState then ⟨t.toMigrate, w.name :: t.withoutState, t.alreadyMigrated⟩
    else
      let check := c.CheckStateExists headObject organization (removeEnvironmentSuffix w.name)
      if check.found then ⟨t.toMigrate, t.withoutState, w.name :: t.alreadyMigrated⟩
      else ⟨w :: t.toMigrate, t.withoutState, t.alreadyMigrated⟩

/-- The summary counts logged at the end of getWorkspacesToMigrate. -/
structure PlanCounts where
  totalFound : Nat
  withState : Nat
  withoutState : Nat
  alreadyMigrated : Nat
  toMigrate : Nat
  deriving DecidableEq, Repr

/-- Embedding of the summary-count log fields of getWorkspacesToMigrate
(migrator.go lines 232-238): both the with-state and the to-migrate fields are
the length of the final filtered list, counted after the already-migrated
workspaces were removed. -/
def planCounts (c : S3Client) (headObject : Bytes → HeadResult) (organization : Bytes)
    (ws : List Workspace) : PlanCounts :=
  let t := planWorkspaces c headObject organization ws
  ⟨ws.length, t.toMigrate.length, t.withoutState.length, t.alreadyMigrated.length,
    t.toMigrate.length⟩

/-- Phase of one goroutine of processBatch (migrator.go lines 294-319): pending
before the semaphore send, inflight while holding a slot, finished after the
deferred receive released the slot. -/
inductive Phase where
  | pending
  | inflight
  | finished
  deriving DecidableEq, Repr

/-- Number of goroutines currently holding a semaphore slot. -/
def inflightCount (s : List Phase) : Nat := s.countP (fun p => decide (p = Phase.inflight))

/-- One scheduler step of a batch under Go buffered-channel semantics: a pending
goroutine may acquire a slot only while fewer than K slots are held (a send on a
buffered channel of capacity K blocks otherwise); an inflight goroutine finishes
by releasing its slot through the deferred receive, whether its migration
succeeded or failed. -/
inductive BatchStep (K : Nat) : List Phase → List Phase → Prop
  | acquire (s : List Phase) (i : Nat) (hi : s.get? i = some Phase.pending)
      (hK : inflightCount s < K) : BatchStep K s (s.set i Phase.inflight)
  | release (s : List Phase) (i : Nat) (hi : s.get? i = some Phase.inflight) :
      BatchStep K s (s.set i Phase.finished)

/-- Sample workspace used by concrete witnesses. -/
def wsA : Workspace := ⟨("1").data, ("alpha").data, true⟩

/-- Second sample workspace. -/
def wsB : Workspace := ⟨("2").data, ("beta").data, true⟩

/-- Third sample workspace. -/
def wsC : Workspace := ⟨("3").data, ("gamma").data, true⟩

/-- Fourth sample workspace. -/
def wsD : Workspace := ⟨("4").data, ("delta").data, true⟩

/-! Helper lemmas. -/

/-- No entry of the suffix table is a suffix of another entry; hence for any
name at most one table entry can match its end. -/
theorem envSuffixes_no_nested : ∀ s ∈ envSuffixes, ∀ t ∈ envSuffixes,
    s.isSuffixOf t = true → s = t := by decide

/-- Two table entries matching the end of the same string are equal. -/
theorem envSuffixes_unique_match {x s t : Bytes} (hs : s ∈ envSuffixes)
    (ht : t ∈ envSuffixes) (hsx : s <:+ x) (htx : t <:+ x) : s = t := by
  rcases List.suffix_or_suffix_of_suffix hsx htx with h | h
  · exact envSuffixes_no_nested s hs t ht (List.isSuffixOf_iff_suffix.mpr h)
  · exact (envSuffixes_no_nested t ht s hs (List.isSuffixOf_iff_suffix.mpr h)).symm

/-- C7. The name normalizer is a pure total function: whenever the lowercased
name ends with a table suffix, the (unique, hence longest) matching suffix is
stripped from the name; when no suffix matches, the name is returned unchanged;
and the three concrete examples of the specification hold. -/
theorem removeEnvironmentSuffix_spec (name : Bytes) :
    (∀ s ∈ envSuffixes, s <:+ toLowerStr name →
      removeEnvironmentSuffix name = name.take (name.length - s.length) ∧
      ∀ t ∈ envSuffixes, t <:+ toLowerStr name → t.length ≤ s.length) ∧
    ((∀ s ∈ envSuffixes, ¬ s <:+ toLowerStr name) → removeEnvironmentSuffix name = name) ∧
    removeEnvironmentSuffix ("app-prod").data = ("app").data ∧
    removeEnvironmentSuffix ("app-STAGING").data = ("app").data ∧
    removeEnvironmentSuffix ("app").data = ("app").data := by
  refine ⟨?_, ?_, by decide, by decide, by decide⟩
  · intro s hs hsuf
    have hsome : (envSuffixes.find? (fun t => t.isSuffixOf (toLowerStr name))).isSome := by
      rw [List.find?_isSome]
      exact ⟨s, hs, List.isSuffixOf_iff_suffix.mpr hsuf⟩
    obtain ⟨t0, ht0⟩ := Option.isSome_iff_exists.mp hsome
    have ht0mem : t0 ∈ envSuffixes := List.mem_of_find?_eq_some ht0
    have hp := List.find?_some ht0
    have ht0suf : t0 <:+ toLowerStr name := List.isSuffixOf_iff_suffix.mp hp
    have hts : t0 = s := envSuffixes_unique_match ht0mem hs ht0suf hsuf
    constructor
    · rw [removeEnvironmentSuffix, ht0, hts]
    · intro t ht htsuf
      rw [envSuffixes_unique_match ht hs htsuf hsuf]
  · intro hnone
    have : envSuffixes.find? (fun t => t.isSuffixOf (toLowerStr name)) = none := by
      rw [List.find?_eq_none]
      intro t ht
      simpa [List.isSuffixOf_iff_suffix] using hnone t ht
    rw [removeEnvironmentSuffix, this]

/-- Witness for C7: the theorem applied at a concrete name, with its inner
hypotheses discharged by evaluation. -/
theorem removeEnvironmentSuffix_spec_witness :
    removeEnvironmentSuffix ("app-prod").data =
      ("app-prod").data.take (("app-prod").data.length - ("-prod").data.length) :=
  ((removeEnvironmentSuffix_spec ("app-prod").data).1 ("-prod").data (by decide) (by decide)).1

/-- C1, counterexample. For a client configured with the non-empty key prefix
envs, the state object is written at app/terraform.tfstate, which is not the
configured prefix followed by app/terraform.tfstate: generateStateKey ignores
the prefix field entirely. -/
theorem uploadState_prefix_counterexample :
    (S3Client.UploadState ⟨("bucket").data, ("envs").data⟩ (fun _ => none)
        (fun _ => some ("mj").data) ("org").data ("app").data ("sc").data []).puts.map
        PutCall.key =
      [("app/terraform.tfstate").data, ("app/metadata.json").data] ∧
    ¬ ("app/terraform.tfstate").data =
        ("envs").data ++ ("app/terraform.tfstate").data := by
  exact ⟨by decide, by decide⟩

/-- C1, amended: with the destination reachable and the metadata serializable,
uploadState writes exactly two objects, at the unprefixed keys
workspaceName/terraform.tfstate (the raw state bytes) and
workspaceName/metadata.json (the serialized metadata), both with content type
application/json — the configured prefix and the organization play no part in
the keys — and checkExists probes that same workspaceName/terraform.tfstate
key. -/
theorem uploadState_keys_amended (c : S3Client) (putObject : PutCall → Option Bytes)
    (marshalIndent : Metadata → Option Bytes) (organization workspaceName stateContent : Bytes)
    (metadata : Metadata) (headObject : Bytes → HeadResult) (mj : Bytes)
    (hput : ∀ p, putObject p = none) (hm : marshalIndent metadata = some mj) :
    (c.UploadState putObject marshalIndent organization workspaceName stateContent
        metadata).puts =
      [⟨goPathJoin workspaceName tfstateFile, stateContent, jsonCT⟩,
       ⟨goPathJoin workspaceName metadataFile, mj, jsonCT⟩] ∧
    (c.UploadState putObject marshalIndent organization workspaceName stateContent
        metadata).err = none ∧
    (c.CheckStateExists headObject organization workspaceName).queriedKey =
      goPathJoin workspaceName tfstateFile := by
  refine ⟨?_, ?_, ?_⟩
  · simp [S3Client.UploadState, S3Client.generateStateKey, hput, hm]
  · simp [S3Client.UploadState, S3Client.generateStateKey, hput, hm]
  · simp only [S3Client.CheckStateExists, S3Client.generateStateKey]
    cases h : headObject (goPathJoin workspaceName tfstateFile) <;> simp [h]

/-- Unfolding equation of retryFrom inside the loop bound. -/
theorem retryFrom_of_le {R a : Nat} (upload : Nat → Option Bytes) (h : a ≤ R) :
    retryFrom R upload a =
      match upload a with
      | none => ⟨1, [], none⟩
      | some e =>
        if a < R then
          let rest := retryFrom R upload (a + 1)
          ⟨rest.attempts + 1, a :: rest.sleeps, rest.lastErr⟩
        else ⟨1, [], some e⟩ := by
  rw [retryFrom]
  simp [h]

/-- The number of upload attempts made from attempt a never exceeds the number
of loop iterations left. -/
theorem retryFrom_attempts_le (R : Nat) (upload : Nat → Option Bytes) (a : Nat) :
    (retryFrom R upload a).attempts ≤ R + 1 - a := by
  by_cases h : a ≤ R
  · rw [retryFrom_of_le upload h]
    cases upload a with
    | none => simp; omega
    | some e =>
      dsimp only
      by_cases h2 : a < R
      · rw [if_pos h2]
        have := retryFrom_attempts_le R upload (a + 1)
        show (retryFrom R upload (a + 1)).attempts + 1 ≤ R + 1 - a
        omega
      · simp [h2]; omega
  · rw [retryFrom]; simp [h]
termination_by R + 1 - a
decreasing_by omega

/-- The loop makes at least one attempt when it is entered. -/
theorem retryFrom_attempts_pos (R : Nat) (upload : Nat → Option Bytes) (a : Nat)
    (h : a ≤ R) : 1 ≤ (retryFrom R upload a).attempts := by
  rw [retryFrom_of_le upload h]
  cases upload a with
  | none => simp
  | some e =>
    by_cases h2 : a < R
    · simp [h2]
    · simp [h2]

/-- The back-off sleeps are exactly attempt seconds after every failed attempt
except the last attempt made: attempts numbered a, a+1, ... up to one before the
last attempt made. -/
theorem retryFrom_sleeps (R : Nat) (upload : Nat → Option Bytes) (a : Nat) :
    (retryFrom R upload a).sleeps = List.range' a ((retryFrom R upload a).attempts - 1) := by
  by_cases h : a ≤ R
  · rw [retryFrom_of_le upload h]
    cases upload a with
    | none => simp
    | some e =>
      dsimp only
      by_cases h2 : a < R
      · rw [if_pos h2]
        have ih := retryFrom_sleeps R upload (a + 1)
        have hpos := retryFrom_attempts_pos R upload (a + 1) (by omega)
        show a :: (retryFrom R upload (a + 1)).sleeps =
          List.range' a ((retryFrom R upload (a + 1)).attempts + 1 - 1)
        rw [ih]
        have : (retryFrom R upload (a + 1)).attempts + 1 - 1 =
            ((retryFrom R upload (a + 1)).attempts - 1) + 1 := by omega
        rw [this, List.range'_succ]
      · simp [h2]
  · rw [retryFrom]; simp [h]
termination_by R + 1 - a
decreasing_by omega

/-- When every attempt fails, the loop runs to exhaustion: it uses every
remaining attempt, sleeps after each attempt but the last, and leaves the last
upload error. -/
theorem retryFrom_all_fail (R : Nat) (upload : Nat → Option Bytes) (a : Nat)
    (h : a ≤ R) (hfail : ∀ i, a ≤ i → i ≤ R → (upload i).isSome = true) :
    retryFrom R upload a = ⟨R + 1 - a, List.range' a (R - a), upload R⟩ := by
  rw [retryFrom_of_le upload h]
  cases he : upload a with
  | none =>
    have := hfail a (by omega) h
    rw [he] at this
    simp at this
  | some e =>
    dsimp only
    by_cases h2 : a < R
    · rw [if_pos h2]
      have ih := retryFrom_all_fail R upload (a + 1) (by omega)
        (fun i hi1 hi2 => hfail i (by omega) hi2)
      simp only [ih]
      have h1 : R + 1 - (a + 1) + 1 = R + 1 - a := by omega
      have h2' : R - a = (R - (a + 1)) + 1 := by omega
      rw [h1, h2', List.range'_succ]
    · have ha : a = R := by omega
      subst ha
      rw [if_neg h2, he]
      have e1 : a + 1 - a = 1 := by omega
      have e2 : a - a = 0 := by omega
      rw [e1, e2, List.range'_zero]
termination_by R + 1 - a
decreasing_by omega

/-- When attempt k is the first to succeed, the loop stops there successfully,
having slept after each earlier attempt. -/
theorem retryFrom_first_success (R : Nat) (upload : Nat → Option Bytes) (a k : Nat)
    (hak : a ≤ k) (hkR : k ≤ R) (hk : upload k = none)
    (hprev : ∀ i, a ≤ i → i < k → (upload i).isSome = true) :
    retryFrom R upload a = ⟨k + 1 - a, List.range' a (k - a), none⟩ := by
  rw [retryFrom_of_le upload (by omega)]
  cases he : upload a with
  | none =>
    have hka : k = a := by
      by_contra hne
      have hlt : a < k := by omega
      have := hprev a (by omega) hlt
      rw [he] at this
      simp at this
    subst hka
    dsimp only
    have e1 : k + 1 - k = 1 := by omega
    have e2 : k - k = 0 := by omega
    rw [e1, e2, List.range'_zero]
  | some e =>
    have hlt : a < k := by
      rcases Nat.lt_or_ge a k with h | h
      · exact h
      · have : a = k := by omega
        subst this
        rw [he] at hk
        simp at hk
    have h2 : a < R := by omega
    dsimp only
    rw [if_pos h2]
    have ih := retryFrom_first_success R upload (a + 1) k (by omega) hkR hk
      (fun i hi1 hi2 => hprev i (by omega) hi2)
    simp only [ih]
    have h1 : k + 1 - (a + 1) + 1 = k + 1 - a := by omega
    have h2' : k - a = (k - (a + 1)) + 1 := by omega
    rw [h1, h2', List.range'_succ]
termination_by R + 1 - a
decreasing_by omega

/-- Chunking never produces the empty partition on a nonempty list. -/
theorem goChunks_ne_nil (B' : Nat) (l : List α) (h : l ≠ []) :
    goChunks (B' + 1) l ≠ [] := by
  cases l with
  | nil => exact absurd rfl h
  | cons x xs => rw [goChunks]; simp

/-- The batches are contiguous slices of the input, in order: their
concatenation is the input. -/
theorem goChunks_flatten (B' : Nat) (l : List α) : (goChunks (B' + 1) l).flatten = l := by
  cases l with
  | nil => rw [goChunks]; rfl
  | cons x xs =>
    rw [goChunks, List.flatten_cons]
    rw [goChunks_flatten B' ((x :: xs).drop (B' + 1))]
    exact List.take_append_drop _ _
termination_by l.length
decreasing_by simp; omega

/-- The number of batches is the Go totalBatches formula
(len + batchSize - 1) / batchSize, the ceiling of len / batchSize. -/
theorem goChunks_length (B' : Nat) (l : List α) (h : l ≠ []) :
    (goChunks (B' + 1) l).length = (l.length + (B' + 1) - 1) / (B' + 1) := by
  cases l with
  | nil => exact absurd rfl h
  | cons x xs =>
    rw [goChunks]
    by_cases hd : (x :: xs).drop (B' + 1) = []
    · have hlen : xs.length + 1 ≤ B' + 1 := by
        have h0 := congrArg List.length hd
        simp at h0
        omega
      rw [hd, goChunks]
      simp only [List.length_singleton, List.length_cons]
      have e1 : xs.length + 1 + (B' + 1) - 1 = xs.length + (B' + 1) := by omega
      rw [e1, Nat.add_div_right _ (by omega), Nat.div_eq_of_lt (by omega)]
      simp
    · have ih := goChunks_length B' ((x :: xs).drop (B' + 1)) hd
      have hgt : B' + 1 < xs.length + 1 := by
        by_contra hle
        have hlen2 : (x :: xs).length ≤ B' + 1 := by simp; omega
        exact hd (List.drop_eq_nil_of_le hlen2)
      rw [List.length_cons, ih, List.length_drop]
      simp only [List.length_cons]
      have e2 : xs.length + 1 - (B' + 1) + (B' + 1) - 1 = xs.length := by omega
      have e1 : xs.length + 1 + (B' + 1) - 1 = xs.length + (B' + 1) := by omega
      rw [e2, e1, Nat.add_div_right _ (by omega)]
termination_by l.length
decreasing_by simp_all; omega

/-- Every batch has the configured size, except a possibly smaller (but
nonempty) final batch. -/
theorem goChunks_sizes (B' : Nat) (l : List α) (h : l ≠ []) :
    ∃ last, (goChunks (B' + 1) l).map List.length =
      List.replicate ((goChunks (B' + 1) l).length - 1) (B' + 1) ++ [last] ∧
      0 < last ∧ last ≤ B' + 1 := by
  cases l with
  | nil => exact absurd rfl h
  | cons x xs =>
    rw [goChunks]
    by_cases hd : (x :: xs).drop (B' + 1) = []
    · have hlen : xs.length + 1 ≤ B' + 1 := by
        have h0 := congrArg List.length hd
        simp at h0
        omega
      refine ⟨xs.length + 1, ?_, by omega, hlen⟩
      rw [hd, goChunks]
      simp only [List.map_cons, List.map_nil, List.length_singleton, List.length_take]
      have : min (B' + 1) (x :: xs).length = xs.length + 1 := by
        rw [List.length_cons]
        exact Nat.min_eq_right hlen
      rw [this]
      simp
    · obtain ⟨last, hsz, hpos, hle⟩ := goChunks_sizes B' ((x :: xs).drop (B' + 1)) hd
      have hgt : B' + 1 < xs.length + 1 := by
        by_contra hle'
        have hlen2 : (x :: xs).length ≤ B' + 1 := by simp; omega
        exact hd (List.drop_eq_nil_of_le hlen2)
      have hcne : 0 < (goChunks (B' + 1) ((x :: xs).drop (B' + 1))).length :=
        List.length_pos.mpr (goChunks_ne_nil B' ((x :: xs).drop (B' + 1)) hd)
      refine ⟨last, ?_, hpos, hle⟩
      rw [List.map_cons, hsz, List.length_cons]
      have e1 : (goChunks (B' + 1) ((x :: xs).drop (B' + 1))).length + 1 - 1 =
          ((goChunks (B' + 1) ((x :: xs).drop (B' + 1))).length - 1) + 1 := by omega
      rw [e1, List.replicate_succ, List.length_take]
      have : min (B' + 1) (x :: xs).length = B' + 1 := by
        rw [List.length_cons]
        exact Nat.min_eq_left (by omega)
      rw [this]
      simp
termination_by l.length
decreasing_by simp_all; omega

/-- The statistics produced by the batch loop are the fold of the per-batch
processing over the batch list. -/
theorem runBatches_stats (outcome : Workspace → Option Bytes) (T : Nat)
    (bs : List (List Workspace)) (k : Nat) (s : MigrationStats) :
    (runBatches outcome T bs k s).stats =
      bs.foldl (fun s b => processBatch outcome b s) s := by
  induction bs generalizing k s with
  | nil => rfl
  | cons b bs ih =>
    rw [runBatches]
    by_cases hk : k < T
    · simp [hk, ih]
    · simp [hk, ih]

/-- The pacing sleeps run after every batch except the last: starting at batch
number k with the invariant that k-1 batches came before, the loop sleeps after
batch numbers k, ..., T-1. -/
theorem runBatches_sleeps (outcome : Workspace → Option Bytes) (T : Nat)
    (bs : List (List Workspace)) (k : Nat) (s : MigrationStats)
    (hinv : k + bs.length = T + 1) :
    (runBatches outcome T bs k s).sleepsAfter = List.range' k (bs.length - 1) := by
  induction bs generalizing k s with
  | nil => rfl
  | cons b bs ih =>
    rw [runBatches]
    cases bs with
    | nil =>
      have hk : ¬ k < T := by simp at hinv; omega
      simp [hk, runBatches]
    | cons c cs =>
      have hk : k < T := by simp at hinv; omega
      have ih' := ih (k + 1) (processBatch outcome b s) (by simp at hinv ⊢; omega)
      simp only [hk, if_pos, ih']
      have e1 : (c :: cs).length - 1 + 1 = (b :: c :: cs).length - 1 := by simp
      rw [← e1, ← List.range'_succ]

/-- Recording an outcome never changes the planned total. -/
theorem recordOutcome_total (s : MigrationStats) (name : Bytes) (e : Option Bytes) :
    (recordOutcome s name e).Total = s.Total := by
  cases e <;> rfl

/-- Recording an outcome increments exactly one of the two counters. -/
theorem recordOutcome_sum (s : MigrationStats) (name : Bytes) (e : Option Bytes) :
    (recordOutcome s name e).Successful + (recordOutcome s name e).Failed =
      s.Successful + s.Failed + 1 := by
  cases e <;> simp [recordOutcome] <;> omega

/-- The failure counter after recording. -/
theorem recordOutcome_failed (s : MigrationStats) (name : Bytes) (e : Option Bytes) :
    (recordOutcome s name e).Failed = s.Failed + (if e.isSome then 1 else 0) := by
  cases e <;> simp [recordOutcome]

/-- The success counter after recording. -/
theorem recordOutcome_successful (s : MigrationStats) (name : Bytes) (e : Option Bytes) :
    (recordOutcome s name e).Successful = s.Successful + (if e.isSome then 0 else 1) := by
  cases e <;> simp [recordOutcome]

/-- The failure list length after recording. -/
theorem recordOutcome_failedItems (s : MigrationStats) (name : Bytes) (e : Option Bytes) :
    (recordOutcome s name e).FailedItems.length =
      s.FailedItems.length + (if e.isSome then 1 else 0) := by
  cases e <;> simp [recordOutcome]

/-- Batch processing never changes the planned total. -/
theorem processBatch_total (outcome : Workspace → Option Bytes) (l : List Workspace)
    (s : MigrationStats) : (processBatch outcome l s).Total = s.Total := by
  induction l generalizing s with
  | nil => rfl
  | cons w ws ih =>
    simp only [processBatch, List.foldl_cons] at ih ⊢
    rw [ih, recordOutcome_total]

/-- Batch processing adds exactly one outcome per workspace of the batch. -/
theorem processBatch_sum (outcome : Workspace → Option Bytes) (l : List Workspace)
    (s : MigrationStats) :
    (processBatch outcome l s).Successful + (processBatch outcome l s).Failed =
      s.Successful + s.Failed + l.length := by
  induction l generalizing s with
  | nil => simp [processBatch]
  | cons w ws ih =>
    simp only [processBatch, List.foldl_cons] at ih ⊢
    rw [ih, recordOutcome_sum]
    simp
    omega

/-- The failures added by a batch are exactly its workspaces whose task
reported an error. -/
theorem processBatch_failed (outcome : Workspace → Option Bytes) (l : List Workspace)
    (s : MigrationStats) :
    (processBatch outcome l s).Failed =
      s.Failed + l.countP (fun w => (outcome w).isSome) := by
  induction l generalizing s with
  | nil => simp [processBatch]
  | cons w ws ih =>
    simp only [processBatch, List.foldl_cons] at ih ⊢
    rw [ih, recordOutcome_failed, List.countP_cons]
    cases h : outcome w <;> simp [h] <;> omega

/-- The successes added by a batch are exactly its workspaces whose task
reported no error. -/
theorem processBatch_successful (outcome : Workspace → Option Bytes) (l : List Workspace)
    (s : MigrationStats) :
    (processBatch outcome l s).Successful =
      s.Successful + l.countP (fun w => (outcome w).isNone) := by
  induction l generalizing s with
  | nil => simp [processBatch]
  | cons w ws ih =>
    simp only [processBatch, List.foldl_cons] at ih ⊢
    rw [ih, recordOutcome_successful, List.countP_cons]
    cases h : outcome w <;> simp [h] <;> omega

/-- One failure detail entry is appended per failed workspace of a batch. -/
theorem processBatch_failedItems (outcome : Workspace → Option Bytes) (l : List Workspace)
    (s : MigrationStats) :
    (processBatch outcome l s).FailedItems.length =
      s.FailedItems.length + l.countP (fun w => (outcome w).isSome) := by
  induction l generalizing s with
  | nil => simp [processBatch]
  | cons w ws ih =>
    simp only [processBatch, List.foldl_cons] at ih ⊢
    rw [ih, recordOutcome_failedItems, List.countP_cons]
    cases h : outcome w <;> simp [h] <;> omega

/-- Batch processing of a concatenation processes the parts in order. -/
theorem processBatch_append (outcome : Workspace → Option Bytes) (l1 l2 : List Workspace)
    (s : MigrationStats) :
    processBatch outcome (l1 ++ l2) s = processBatch outcome l2 (processBatch outcome l1 s) := by
  simp [processBatch]

/-- Folding batch processing over the partition is processing the whole planned
list in order. -/
theorem goChunks_foldl (B' : Nat) (outcome : Workspace → Option Bytes) (l : List Workspace)
    (s : MigrationStats) :
    (goChunks (B' + 1) l).foldl (fun s b => processBatch outcome b s) s =
      processBatch outcome l s := by
  cases l with
  | nil => rw [goChunks]; rfl
  | cons x xs =>
    rw [goChunks, List.foldl_cons]
    rw [goChunks_foldl B' outcome ((x :: xs).drop (B' + 1))
      (processBatch outcome ((x :: xs).take (B' + 1)) s)]
    rw [← processBatch_append, List.take_append_drop]
termination_by l.length
decreasing_by simp_all; omega

/-- The statistics at the end of processBatches are those of processing every
planned workspace once, in order. -/
theorem processBatches_stats (B' : Nat) (outcome : Workspace → Option Bytes)
    (l : List Workspace) (s : MigrationStats) :
    (processBatches (B' + 1) outcome l s).stats = processBatch outcome l s := by
  simp only [processBatches]
  rw [runBatches_stats, goChunks_foldl]

/-- The pacing sleeps of a run happen after batches 1 through totalBatches - 1,
never after the last batch. -/
theorem processBatches_sleeps (B' : Nat) (outcome : Workspace → Option Bytes)
    (l : List Workspace) (s : MigrationStats) :
    (processBatches (B' + 1) outcome l s).sleepsAfter =
      List.range' 1 ((goChunks (B' + 1) l).length - 1) := by
  simp only [processBatches]
  apply runBatches_sleeps
  omega

/-- C4. For a task not in simulation mode with at least one configured attempt:
at least one and at most retry_attempts upload attempts are made; the loop
sleeps attempt seconds after every failed attempt except the last one made
(1 then 2 seconds when three attempts are configured, as the concrete conjunct
shows); if every attempt fails, all retry_attempts attempts are used and the
task fails wrapping the last upload error and the configured attempt count; and
a first success at any attempt k ends the loop successfully at attempt k. -/
theorem migrateWorkspace_retry_spec (R' : Nat) (upload : Nat → Option Bytes) (st : Bytes) :
    (1 ≤ (retryLoop (R' + 1) upload).attempts ∧
      (retryLoop (R' + 1) upload).attempts ≤ R' + 1) ∧
    (retryLoop (R' + 1) upload).sleeps =
      List.range' 1 ((retryLoop (R' + 1) upload).attempts - 1) ∧
    ((∀ i, 1 ≤ i → i ≤ R' + 1 → (upload i).isSome = true) →
      (retryLoop (R' + 1) upload).attempts = R' + 1 ∧
      (retryLoop (R' + 1) upload).lastErr = upload (R' + 1) ∧
      ∀ e, upload (R' + 1) = some e →
        (migrateWorkspace (R' + 1) (Except.ok st) false upload).result =
          TaskResult.uploadError (R' + 1) e) ∧
    (∀ k, 1 ≤ k → k ≤ R' + 1 → upload k = none →
      (∀ i, 1 ≤ i → i < k → (upload i).isSome = true) →
      (retryLoop (R' + 1) upload).attempts = k ∧
      (migrateWorkspace (R' + 1) (Except.ok st) false upload).result = TaskResult.ok) ∧
    (retryLoop 3 (fun _ => some ['e'])).attempts = 3 ∧
    (retryLoop 3 (fun _ => some ['e'])).sleeps = [1, 2] := by
  have hc := retryFrom_all_fail 3 (fun _ => some ['e']) 1 (by omega) (fun i _ _ => rfl)
  refine ⟨⟨?_, ?_⟩, ?_, ?_, ?_, by simp [retryLoop, hc], by simp [retryLoop, hc]; decide⟩
  · exact retryFrom_attempts_pos (R' + 1) upload 1 (by omega)
  · have := retryFrom_attempts_le (R' + 1) upload 1
    simpa [retryLoop] using this
  · exact retryFrom_sleeps (R' + 1) upload 1
  · intro hfail
    have h := retryFrom_all_fail (R' + 1) upload 1 (by omega) hfail
    refine ⟨by simp [retryLoop, h], by simp [retryLoop, h], ?_⟩
    intro e he
    simp [migrateWorkspace, retryLoop, h, he]
  · intro k hk1 hkR hk hprev
    have h := retryFrom_first_success (R' + 1) upload 1 k hk1 hkR hk hprev
    refine ⟨by simp [retryLoop, h], ?_⟩
    simp [migrateWorkspace, retryLoop, h]

/-- Witness for C4: the theorem applied to an upload that always fails with
three configured attempts; the exhaustion conjunct is discharged concretely. -/
theorem migrateWorkspace_retry_spec_witness :
    (retryLoop 3 (fun _ => some ['e'])).attempts = 3 ∧
    (retryLoop 3 (fun _ => some ['e'])).lastErr = (fun _ => some ['e']) 3 ∧
    (migrateWorkspace 3 (Except.ok ['s']) false (fun _ => some ['e'])).result =
      TaskResult.uploadError 3 ['e'] := by
  have h := (migrateWorkspace_retry_spec 2 (fun _ => some ['e']) ['s']).2.2.1
    (fun i _ _ => by simp)
  exact ⟨h.1, h.2.1, h.2.2 ['e'] rfl⟩

/-- Witness for C1: the amended theorem applied at concrete inputs. -/
theorem uploadState_keys_amended_witness :
    (S3Client.UploadState ⟨("bucket").data, ("envs").data⟩ (fun _ => none)
        (fun _ => some ("mj").data) ("org").data ("app").data ("sc").data []).puts =
      [⟨goPathJoin ("app").data tfstateFile, ("sc").data, jsonCT⟩,
       ⟨goPathJoin ("app").data metadataFile, ("mj").data, jsonCT⟩] ∧
    (S3Client.UploadState ⟨("bucket").data, ("envs").data⟩ (fun _ => none)
        (fun _ => some ("mj").data) ("org").data ("app").data ("sc").data []).err = none ∧
    (S3Client.CheckStateExists ⟨("bucket").data, ("envs").data⟩ (fun _ => HeadResult.noSuchKey)
        ("org").data ("app").data).queriedKey = goPathJoin ("app").data tfstateFile :=
  uploadState_keys_amended ⟨("bucket").data, ("envs").data⟩ (fun _ => none)
    (fun _ => some ("mj").data) ("org").data ("app").data ("sc").data []
    (fun _ => HeadResult.noSuchKey) ("mj").data (fun _ => rfl) rfl

/-- The statistics of a run with a nonempty plan are those of processing every
planned workspace once. -/
theorem Migrate_stats_cons (B' : Nat) (outcome : Workspace → Option Bytes)
    (w : Workspace) (ws : List Workspace) :
    (Migrate (B' + 1) outcome (w :: ws)).stats =
      processBatch outcome (w :: ws) (initStats (w :: ws).length) := by
  simp only [Migrate]
  rw [if_neg (by simp)]
  exact processBatches_stats B' outcome (w :: ws) _

/-- A run with a nonempty plan stamps the end time. -/
theorem Migrate_endStamped_cons (B' : Nat) (outcome : Workspace → Option Bytes)
    (w : Workspace) (ws : List Workspace) :
    (Migrate (B' + 1) outcome (w :: ws)).endStamped = true := by
  simp only [Migrate]
  rw [if_neg (by simp)]

/-- A run with a nonempty plan emits the final summary. -/
theorem Migrate_summary_cons (B' : Nat) (outcome : Workspace → Option Bytes)
    (w : Workspace) (ws : List Workspace) :
    (Migrate (B' + 1) outcome (w :: ws)).summaryEmitted = true := by
  simp only [Migrate]
  rw [if_neg (by simp)]

/-- The success rate of a run with a nonempty plan. -/
theorem Migrate_successRate_cons (B' : Nat) (outcome : Workspace → Option Bytes)
    (w : Workspace) (ws : List Workspace) :
    (Migrate (B' + 1) outcome (w :: ws)).successRate =
      successRateOf (processBatch outcome (w :: ws) (initStats (w :: ws).length)) := by
  simp only [Migrate]
  rw [if_neg (by simp)]
  show successRateOf (processBatches (B' + 1) outcome (w :: ws) _).stats = _
  rw [processBatches_stats]

/-- The error result of a run with a nonempty plan is decided by the final
failure count. -/
theorem Migrate_runError_cons (B' : Nat) (outcome : Workspace → Option Bytes)
    (w : Workspace) (ws : List Workspace) :
    (Migrate (B' + 1) outcome (w :: ws)).runError =
      decide (0 < (processBatch outcome (w :: ws) (initStats (w :: ws).length)).Failed) := by
  simp only [Migrate]
  rw [if_neg (by simp)]
  show decide (0 < (processBatches (B' + 1) outcome (w :: ws) _).stats.Failed) = _
  rw [processBatches_stats]

/-- C5. For a nonempty planned list and positive batch size, the scheduler
partitions the list into contiguous batches in input order (their concatenation
is the input), the batch count is the ceiling formula, every batch has the
configured size except a possibly smaller nonempty last batch, the pacing sleep
runs after every batch except the last, and the partition of 7 workspaces at
batch size 3 has sizes 3, 3, 1. -/
theorem processBatches_partition_spec (B' : Nat) (w0 : Workspace) (rest : List Workspace)
    (outcome : Workspace → Option Bytes) (s : MigrationStats) :
    (goChunks (B' + 1) (w0 :: rest)).flatten = w0 :: rest ∧
    (goChunks (B' + 1) (w0 :: rest)).length = ((w0 :: rest).length + (B' + 1) - 1) / (B' + 1) ∧
    (∃ last, (goChunks (B' + 1) (w0 :: rest)).map List.length =
        List.replicate ((goChunks (B' + 1) (w0 :: rest)).length - 1) (B' + 1) ++ [last] ∧
        0 < last ∧ last ≤ B' + 1) ∧
    (processBatches (B' + 1) outcome (w0 :: rest) s).sleepsAfter =
      List.range' 1 ((goChunks (B' + 1) (w0 :: rest)).length - 1) ∧
    (goChunks 3 (List.range 7)).map List.length = [3, 3, 1] := by
  refine ⟨goChunks_flatten B' (w0 :: rest), goChunks_length B' (w0 :: rest) (by simp),
    goChunks_sizes B' (w0 :: rest) (by simp),
    processBatches_sleeps B' outcome (w0 :: rest) s, ?_⟩
  rw [show List.range 7 = [0, 1, 2, 3, 4, 5, 6] from by decide]
  simp [goChunks]

/-- Witness for C5: the partition conjunct of the theorem at a concrete batch
size and plan. -/
theorem processBatches_partition_spec_witness :
    (goChunks (2 + 1) [wsA, wsB, wsC, wsD]).flatten = [wsA, wsB, wsC, wsD] :=
  (processBatches_partition_spec 2 wsA [wsB, wsC, wsD] (fun _ => none) (initStats 4)).1

/-- C2. The planned total is recorded in the statistics; any set of finished
tasks — in any completion order the concurrent tasks may take, i.e. any
sub-permutation of the plan — has contributed exactly one outcome each, so
successful + failed equals the number of finished tasks and never exceeds the
total; and once every batch has completed, successful + failed equals the total
and one failure detail entry exists per counted failure. -/
theorem migrate_conservation (B' : Nat) (outcome : Workspace → Option Bytes)
    (planned : List Workspace) :
    (Migrate (B' + 1) outcome planned).stats.Total = planned.length ∧
    (∀ finished : List Workspace, finished.Subperm planned →
      (processBatch outcome finished (initStats planned.length)).Successful +
        (processBatch outcome finished (initStats planned.length)).Failed = finished.length ∧
      finished.length ≤ planned.length) ∧
    (Migrate (B' + 1) outcome planned).stats.Successful +
      (Migrate (B' + 1) outcome planned).stats.Failed =
      (Migrate (B' + 1) outcome planned).stats.Total ∧
    (Migrate (B' + 1) outcome planned).stats.FailedItems.length =
      (Migrate (B' + 1) outcome planned).stats.Failed := by
  refine ⟨?_, ?_, ?_, ?_⟩
  · cases planned with
    | nil => rfl
    | cons w ws => rw [Migrate_stats_cons, processBatch_total]; rfl
  · intro finished hsub
    refine ⟨?_, hsub.length_le⟩
    rw [processBatch_sum]
    simp [initStats]
  · cases planned with
    | nil => rfl
    | cons w ws =>
      rw [Migrate_stats_cons, processBatch_sum, processBatch_total]
      simp [initStats]
  · cases planned with
    | nil => rfl
    | cons w ws =>
      rw [Migrate_stats_cons, processBatch_failedItems, processBatch_failed]
      simp [initStats]

/-- Witness for C2: conservation applied to a one-workspace plan with the
finished set equal to the plan, discharging the sub-permutation hypothesis. -/
theorem migrate_conservation_witness :
    (processBatch (fun _ => none) [wsA] (initStats [wsA].length)).Successful +
      (processBatch (fun _ => none) [wsA] (initStats [wsA].length)).Failed = [wsA].length ∧
    [wsA].length ≤ [wsA].length :=
  (migrate_conservation 0 (fun _ => none) [wsA]).2.1 [wsA] (List.Subperm.refl _)

/-- C3. Once connection validation and planning have succeeded, the run returns
an error exactly when the final failure count is positive; a run whose planned
workspaces all succeed returns success, and a run with an empty plan returns
success. -/
theorem migrate_error_iff_failures (B' : Nat) (outcome : Workspace → Option Bytes)
    (planned : List Workspace) :
    ((Migrate (B' + 1) outcome planned).runError = true ↔
      0 < (Migrate (B' + 1) outcome planned).stats.Failed) ∧
    ((∀ w ∈ planned, outcome w = none) → (Migrate (B' + 1) outcome planned).runError = false) ∧
    (Migrate (B' + 1) outcome ([] : List Workspace)).runError = false := by
  refine ⟨?_, ?_, rfl⟩
  · cases planned with
    | nil => simp [Migrate, initStats]
    | cons w ws =>
      rw [Migrate_runError_cons, Migrate_stats_cons]
      simp
  · intro hall
    cases planned with
    | nil => rfl
    | cons w ws =>
      rw [Migrate_runError_cons, processBatch_failed]
      have : (w :: ws).countP (fun v => (outcome v).isSome) = 0 := by
        rw [List.countP_eq_zero]
        intro v hv
        rw [hall v hv]
        simp
      rw [this]
      simp [initStats]

/-- Witness for C3: a fully successful one-workspace run returns success. -/
theorem migrate_error_iff_failures_witness :
    (Migrate 1 (fun _ => none) [wsA]).runError = false :=
  (migrate_error_iff_failures 0 (fun _ => none) [wsA]).2.1 (fun w _ => rfl)

/-- C9, counterexample. A run whose planned set is empty returns success
immediately: no end time is stamped, no summary and no success rate are
emitted, contradicting the claim that the summary is emitted for every
completed run including the empty one. -/
theorem migrate_empty_plan_counterexample :
    (Migrate 1 (fun _ => none) ([] : List Workspace)).summaryEmitted = false ∧
    (Migrate 1 (fun _ => none) ([] : List Workspace)).endStamped = false ∧
    (Migrate 1 (fun _ => none) ([] : List Workspace)).successRate = none ∧
    (Migrate 1 (fun _ => none) ([] : List Workspace)).runError = false :=
  ⟨rfl, rfl, rfl, rfl⟩

/-- C9, amended: a run that reaches its end with a nonempty planned set stamps
the end time, emits the summary, and emits the success rate computed as
successful / total * 100 over a positive total, so no division by zero occurs;
a run with an empty planned set instead returns success immediately without
stamping the end time or emitting a summary, and the rate is computed only when
the total is positive. -/
theorem migrate_summary_amended (B' : Nat) (outcome : Workspace → Option Bytes)
    (w : Workspace) (ws : List Workspace) :
    (Migrate (B' + 1) outcome (w :: ws)).endStamped = true ∧
    (Migrate (B' + 1) outcome (w :: ws)).summaryEmitted = true ∧
    0 < (Migrate (B' + 1) outcome (w :: ws)).stats.Total ∧
    (Migrate (B' + 1) outcome (w :: ws)).successRate =
      some (((Migrate (B' + 1) outcome (w :: ws)).stats.Successful : ℚ) /
        ((Migrate (B' + 1) outcome (w :: ws)).stats.Total : ℚ) * 100) ∧
    (Migrate (B' + 1) outcome ([] : List Workspace)).summaryEmitted = false ∧
    (Migrate (B' + 1) outcome ([] : List Workspace)).endStamped = false := by
  have htotal : (Migrate (B' + 1) outcome (w :: ws)).stats.Total = ws.length + 1 := by
    rw [Migrate_stats_cons, processBatch_total]
    rfl
  refine ⟨Migrate_endStamped_cons B' outcome w ws, Migrate_summary_cons B' outcome w ws,
    by omega, ?_, rfl, rfl⟩
  rw [Migrate_successRate_cons, Migrate_stats_cons]
  rw [successRateOf, if_pos]
  rw [processBatch_total]
  simp [initStats]

/-- Witness for C9: the amended theorem applied to a one-workspace run. -/
theorem migrate_summary_amended_witness :
    (Migrate 1 (fun _ => none) [wsA]).summaryEmitted = true :=
  (migrate_summary_amended 0 (fun _ => none) wsA []).2.1

/-- C6. In simulation mode the per-workspace task performs no upload call
whatsoever and succeeds exactly when the state fetch succeeds; consequently the
success counter of a simulated batch counts exactly the workspaces whose fetch
succeeded (fetch failures are still recorded as failures). -/
theorem dryRun_purity (R : Nat) (fetch : Except Bytes Bytes) (upload : Nat → Option Bytes)
    (fetchOf : Workspace → Except Bytes Bytes) (planned : List Workspace) (n : Nat) :
    (migrateWorkspace R fetch true upload).uploads = 0 ∧
    ((migrateWorkspace R fetch true upload).result = TaskResult.ok ↔
      ∃ st, fetch = Except.ok st) ∧
    (processBatch (fun w => (migrateWorkspace R (fetchOf w) true upload).errorOf) planned
        (initStats n)).Successful =
      planned.countP (fun w => match fetchOf w with | .ok _ => true | .error _ => false) ∧
    (processBatch (fun w => (migrateWorkspace R (fetchOf w) true upload).errorOf) planned
        (initStats n)).Failed =
      planned.countP (fun w => match fetchOf w with | .ok _ => false | .error _ => true) := by
  refine ⟨?_, ?_, ?_, ?_⟩
  · cases fetch <;> rfl
  · cases fetch with
    | error e => simp [migrateWorkspace]
    | ok st => simp [migrateWorkspace]
  · rw [processBatch_successful]
    have h0 : (initStats n).Successful = 0 := rfl
    rw [h0, Nat.zero_add]
    apply List.countP_congr
    intro v hv
    cases hf : fetchOf v <;> simp [migrateWorkspace, TaskTrace.errorOf, hf]
  · rw [processBatch_failed]
    have h0 : (initStats n).Failed = 0 := rfl
    rw [h0, Nat.zero_add]
    apply List.countP_congr
    intro v hv
    cases hf : fetchOf v <;> simp [migrateWorkspace, TaskTrace.errorOf, hf]

/-- Witness for C6: a simulated task over a successful fetch performs no upload
call. -/
theorem dryRun_purity_witness :
    (migrateWorkspace 3 (Except.ok ("sc").data) true (fun _ => some ['e'])).uploads = 0 :=
  (dryRun_purity 3 (Except.ok ("sc").data) (fun _ => some ['e'])
    (fun _ => Except.ok ("sc").data) [wsA] 1).1

/-- Length accounting of the planning filter: every input workspace lands in
exactly one of the three output lists. -/
theorem planWorkspaces_length (c : S3Client) (head : Bytes → HeadResult) (org : Bytes)
    (ws : List Workspace) :
    (planWorkspaces c head org ws).toMigrate.length +
      (planWorkspaces c head org ws).withoutState.length +
      (planWorkspaces c head org ws).alreadyMigrated.length = ws.length := by
  induction ws with
  | nil => rfl
  | cons w rest ih =>
    rw [planWorkspaces]
    cases hs : w.hasState with
    | false =>
      simp [hs]
      omega
    | true =>
      cases h2 : (c.CheckStateExists head org (removeEnvironmentSuffix w.name)).found with
      | true =>
        simp [hs, h2]
        omega
      | false =>
        simp [hs, h2]
        omega

/-- C8, counterexample. One workspace with state whose normalized destination
already exists: the planner reports total found 1, with-state 0, without-state
0, already-migrated 1, to-migrate 0. The claimed relation with-state = total
found - without-state fails (0 is not 1). -/
theorem planCounts_counterexample :
    planCounts ⟨("bucket").data, []⟩ (fun _ => HeadResult.ok) ("org").data [wsA] =
      ⟨1, 0, 0, 1, 0⟩ ∧
    ¬ ((planCounts ⟨("bucket").data, []⟩ (fun _ => HeadResult.ok) ("org").data
          [wsA]).withState =
        (planCounts ⟨("bucket").data, []⟩ (fun _ => HeadResult.ok) ("org").data
          [wsA]).totalFound -
        (planCounts ⟨("bucket").data, []⟩ (fun _ => HeadResult.ok) ("org").data
          [wsA]).withoutState ∧
       (planCounts ⟨("bucket").data, []⟩ (fun _ => HeadResult.ok) ("org").data
          [wsA]).toMigrate =
        (planCounts ⟨("bucket").data, []⟩ (fun _ => HeadResult.ok) ("org").data
          [wsA]).withState -
        (planCounts ⟨("bucket").data, []⟩ (fun _ => HeadResult.ok) ("org").data
          [wsA]).alreadyMigrated) := by
  decide

/-- C8, amended: the reported with-state count equals total found minus
without-state minus already-migrated (it is computed after the already-migrated
workspaces were excluded), and the reported to-migrate count equals the reported
with-state count. -/
theorem planCounts_amended (c : S3Client) (head : Bytes → HeadResult) (org : Bytes)
    (ws : List Workspace) :
    (planCounts c head org ws).withState + (planCounts c head org ws).withoutState +
      (planCounts c head org ws).alreadyMigrated = (planCounts c head org ws).totalFound ∧
    (planCounts c head org ws).toMigrate = (planCounts c head org ws).withState :=
  ⟨planWorkspaces_length c head org ws, rfl⟩

/-- Witness for C8: the amended count relation at a concrete plan. -/
theorem planCounts_amended_witness :
    (planCounts ⟨("bucket").data, []⟩ (fun _ => HeadResult.ok) ("org").data [wsA]).withState +
      (planCounts ⟨("bucket").data, []⟩ (fun _ => HeadResult.ok) ("org").data
        [wsA]).withoutState +
      (planCounts ⟨("bucket").data, []⟩ (fun _ => HeadResult.ok) ("org").data
        [wsA]).alreadyMigrated =
      (planCounts ⟨("bucket").data, []⟩ (fun _ => HeadResult.ok) ("org").data [wsA]).totalFound :=
  (planCounts_amended ⟨("bucket").data, []⟩ (fun _ => HeadResult.ok) ("org").data [wsA]).1

/-- The initial batch state holds no semaphore slot. -/
theorem inflightCount_replicate_pending (n : Nat) :
    inflightCount (List.replicate n Phase.pending) = 0 := by
  simp [inflightCount, List.countP_replicate]

/-- Acquiring a slot raises the in-flight count by one. -/
theorem inflightCount_set_acquire (s : List Phase) (i : Nat)
    (h : s.get? i = some Phase.pending) :
    inflightCount (s.set i Phase.inflight) = inflightCount s + 1 := by
  induction s generalizing i with
  | nil => simp at h
  | cons x xs ih =>
    cases i with
    | zero =>
      simp only [List.get?_cons_zero, Option.some.injEq] at h
      subst h
      simp [inflightCount, List.countP_cons]
    | succ j =>
      have h' : xs.get? j = some Phase.pending := by simpa using h
      have hj := ih j h'
      simp only [List.set_cons_succ]
      simp only [inflightCount, List.countP_cons] at hj ⊢
      omega

/-- Releasing a held slot lowers the in-flight count by one. -/
theorem inflightCount_set_release (s : List Phase) (i : Nat)
    (h : s.get? i = some Phase.inflight) :
    inflightCount (s.set i Phase.finished) + 1 = inflightCount s := by
  induction s generalizing i with
  | nil => simp at h
  | cons x xs ih =>
    cases i with
    | zero =>
      simp only [List.get?_cons_zero, Option.some.injEq] at h
      subst h
      simp [inflightCount, List.countP_cons]
    | succ j =>
      have h' : xs.get? j = some Phase.inflight := by simpa using h
      have hj := ih j h'
      simp only [List.set_cons_succ]
      simp only [inflightCount, List.countP_cons] at hj ⊢
      omega

/-- C10. In every state a batch can reach from its start (all tasks pending, no
slot held), the number of tasks holding a semaphore slot — the concurrently
in-flight migrations — never exceeds the configured capacity K: a task acquires
a slot only while fewer than K are held, and every completion, successful or
failed, releases its slot. -/
theorem batch_inflight_bound (K n : Nat) (s : List Phase)
    (h : Relation.ReflTransGen (BatchStep K) (List.replicate n Phase.pending) s) :
    inflightCount s ≤ K := by
  induction h with
  | refl => rw [inflightCount_replicate_pending]; omega
  | tail hab hbc ih =>
    cases hbc with
    | acquire i hi hK => rw [inflightCount_set_acquire _ i hi]; omega
    | release i hi =>
      have := inflightCount_set_release _ i hi
      omega

/-- Witness for C10: the bound applied to the initial reachable state of a
three-task batch with capacity two. -/
theorem batch_inflight_bound_witness :
    inflightCount (List.replicate 3 Phase.pending) ≤ 2 :=
  batch_inflight_bound 2 3 (List.replicate 3 Phase.pending) Relation.ReflTransGen.refl
